import Mathlib

/-!
# Verification of the `oneway` one-way file transfer protocol

Shallow embedding of the core of the `oneway` repository (Rust) in Lean 4:

* `src/retransmit.rs` — the framing / retransmit layer (`RetransmitHeader`,
  `Retransmit`, `Reassembler`);
* `src/messages.rs` — the typed message codec (`Message`);
* `src/connection/client.rs` — the sender's file chunking loop;
* `src/connection/server.rs` — the per-peer handler (`ClientHandler`) and the
  dispatcher (`Server::recv_message`).

Bytes are modelled as `Nat` (with explicit `< 256` bounds where needed),
byte strings as `List Nat`, and the Rust `u16`/`u32`/`u64` machine integers as
`Nat` with explicit range side conditions.  Fallible operations return
`Option` or `Except`.  A Rust panic (out-of-bounds slice, failed `assert!`)
is modelled by the explicit error value `RErr.panic`.
-/

namespace Oneway

/-! ## Big-endian integer encoding (nom's `be_u16`/`be_u32`/`be_u64`) -/

/-- Big-endian byte encoding of `n` on `w` bytes (`u16::to_be_bytes`,
`u32::to_be_bytes`, `u64::to_be_bytes` specialised to `w = 2, 4, 8`). -/
def beBytes : Nat → Nat → List Nat
  | 0, _ => []
  | w + 1, n => beBytes w (n / 256) ++ [n % 256]

/-- Big-endian parser accumulating into `acc`; models nom's
`be_u16`/`be_u32`/`be_u64` (which fail when fewer than `w` bytes remain). -/
def takeBe : Nat → Nat → List Nat → Option (Nat × List Nat)
  | 0, acc, rest => some (acc, rest)
  | _ + 1, _, [] => none
  | w + 1, acc, b :: rest => takeBe w (acc * 256 + b) rest

/-! ## `RetransmitHeader` (src/retransmit.rs)

The per-datagram framing header: 4-byte magic `"1WAY"`, then `offset`,
`size`, `total_size` as big-endian `u16` and `id` as big-endian `u32`. -/

/-- Magic value `"1WAY"` (`RETRANSMIT_MAGIC`, src/retransmit.rs line 15). -/
def RETRANSMIT_MAGIC : List Nat := [0x31, 0x57, 0x41, 0x59]

/-- `RetransmitHeader` (src/retransmit.rs lines 19-31).  Machine integers
(`u16`, `u16`, `u16`, `u32` in the source) are `Nat` with range conditions
in `RetransmitHeader.wf`. -/
structure RetransmitHeader where
  offset : Nat
  size : Nat
  totalSize : Nat
  id : Nat
deriving Repr, DecidableEq

/-- `RetransmitHeader::size()` (src/retransmit.rs lines 34-42):
magic length + two bytes for each of `offset`, `size`, `total_size` and four
bytes for `id`.  (Named `byteSize` here because the struct also has a `size`
field.) -/
def RetransmitHeader.byteSize : Nat :=
  RETRANSMIT_MAGIC.length + 2 + 2 + 2 + 4

/-- The fields of a header fit their machine widths. -/
def RetransmitHeader.wf (h : RetransmitHeader) : Prop :=
  h.offset < 2 ^ 16 ∧ h.size < 2 ^ 16 ∧ h.totalSize < 2 ^ 16 ∧ h.id < 2 ^ 32

instance (h : RetransmitHeader) : Decidable h.wf := by
  unfold RetransmitHeader.wf; infer_instance

/-- `RetransmitHeader::to_wire` (src/retransmit.rs lines 86-94): the magic,
then `offset`, `size`, `total_size` big-endian on 2 bytes each, then `id`
big-endian on 4 bytes.  The writer-based source function is modelled by the
byte list it writes. -/
def RetransmitHeader.toWire (h : RetransmitHeader) : List Nat :=
  RETRANSMIT_MAGIC ++ beBytes 2 h.offset ++ beBytes 2 h.size ++
    beBytes 2 h.totalSize ++ beBytes 4 h.id

/-- `RetransmitHeader::from_wire` (src/retransmit.rs lines 65-84): match the
magic, read `offset`, `size`, `total_size`, `id`, checking (nom `verify`)
that `total_size ≥ offset + size`.  `none` models any nom parse error. -/
def RetransmitHeader.fromWire (input : List Nat) :
    Option (List Nat × RetransmitHeader) :=
  if RETRANSMIT_MAGIC.isPrefixOf input then do
    let (offset, rest) ← takeBe 2 0 (input.drop RETRANSMIT_MAGIC.length)
    let (size, rest) ← takeBe 2 0 rest
    let (totalSize, rest) ← takeBe 2 0 rest
    if offset + size ≤ totalSize then do
      let (id, rest) ← takeBe 4 0 rest
      some (rest, ⟨offset, size, totalSize, id⟩)
    else none
  else none

/-- `max_payload_size` (src/retransmit.rs lines 58-62): `mtu` minus the
header size.  (The source's `debug_assert!(mtu > RetransmitHeader::size())`
is a side condition; `Nat` subtraction truncates below it.) -/
def maxPayloadSize (mtu : Nat) : Nat :=
  mtu - RetransmitHeader.byteSize

/-- `RetransmitHeader::get_next_id` (src/retransmit.rs lines 44-55): a
process-wide `AtomicU32` counter starting at `0`; `fetch_add(1)` returns the
current value and increments it, wrapping at `2^32`.  The atomic cell is
modelled by explicit state passing. -/
def RetransmitHeader.getNextId (counter : Nat) : Nat × Nat :=
  (counter, (counter + 1) % 2 ^ 32)

/-- Initial value of the `NEXT_ID` static (src/retransmit.rs line 45). -/
def RetransmitHeader.nextIdInit : Nat := 0

/-! ## `Retransmit` — the sender side emitter (src/retransmit.rs lines 99-209) -/

/-- `Retransmit` (src/retransmit.rs lines 99-117). -/
structure Retransmit where
  header : RetransmitHeader
  mtu : Nat
  currentEmission : Nat
  totalEmissions : Nat
  data : List Nat
  buffer : List Nat
deriving Repr, DecidableEq

/-- `Retransmit::new` (src/retransmit.rs lines 121-141).  The two
`try_into::<u16>()?` calls fail (with `Error::IntegerConversion`) exactly
when `data.len()` or `mtu` exceeds `u16::MAX`; `none` models that failure.
The header id comes from `RetransmitHeader::get_next_id`; the atomic counter
is modelled by passing the drawn `id` explicitly. -/
def Retransmit.new (data : List Nat) (remissionCount mtu id : Nat) :
    Option Retransmit :=
  if data.length < 2 ^ 16 ∧ mtu < 2 ^ 16 then
    some { header := ⟨0, 0, data.length, id⟩, mtu := mtu, currentEmission := 1,
           totalEmissions := remissionCount, data := data, buffer := [] }
  else none

/-- `Retransmit::get_chunk` (src/retransmit.rs lines 144-154). -/
def Retransmit.getChunk (r : Retransmit) : List Nat :=
  let remaining := r.data.drop r.header.offset
  if remaining.length + RetransmitHeader.byteSize > r.mtu then
    remaining.take (r.mtu - RetransmitHeader.byteSize)
  else remaining

/-- `Retransmit::prepare_buffer` (src/retransmit.rs lines 157-166): clear the
buffer, set `header.size` to the chunk length, serialize the header and
append the chunk. -/
def Retransmit.prepareBuffer (r : Retransmit) : Retransmit :=
  let chunk := r.getChunk
  let header := { r.header with size := chunk.length }
  { r with header := header, buffer := header.toWire ++ chunk }

/-- `Retransmit::get_next_chunk` (src/retransmit.rs lines 169-191).  While
`current_emission ≤ total_emissions` the same chunk is re-emitted; otherwise
the offset advances by `mtu - RetransmitHeader::size()` when more data
remains (the source resets `current_emission` to 1 without counting this
emission).  Arithmetic on `offset`/`advance` is `Nat`; the source's `u16`
additions stay below `2^16` whenever `mtu < 2^16` (checked in `new`). -/
def Retransmit.getNextChunk (r : Retransmit) : Option (Retransmit × List Nat) :=
  if r.currentEmission ≤ r.totalEmissions then
    let r1 := r.prepareBuffer
    let r2 := { r1 with currentEmission := r1.currentEmission + 1 }
    some (r2, r2.buffer)
  else
    let advance := r.mtu - RetransmitHeader.byteSize
    if r.header.offset + advance < r.header.totalSize then
      let h1 := { r.header with offset := r.header.offset + advance }
      let r1 := { r with currentEmission := 1, header := h1 }
      let r2 := r1.prepareBuffer
      some (r2, r2.buffer)
    else none

/-- `Retransmit::reset` (src/retransmit.rs lines 194-197). -/
def Retransmit.reset (r : Retransmit) : Retransmit :=
  { r with currentEmission := 1, header := { r.header with offset := 0 } }

/-- The emission loop of `Retransmit::send` (src/retransmit.rs lines 203-206)
with explicit fuel: collect the successive chunks handed to `socket.send`. -/
def Retransmit.sendChunks : Nat → Retransmit → List (List Nat)
  | 0, _ => []
  | fuel + 1, r =>
    match r.getNextChunk with
    | none => []
    | some (r', chunk) => chunk :: Retransmit.sendChunks fuel r'

/-- `Retransmit::send` (src/retransmit.rs lines 200-208): reset, then emit
every chunk.  The fuel bound dominates the number of emissions (each offset
position is emitted at most `total_emissions + 1` times and there are at
most `total_size + 1` positions). -/
def Retransmit.send (r : Retransmit) : List (List Nat) :=
  Retransmit.sendChunks ((r.totalEmissions + 2) * (r.header.totalSize + 2)) r.reset

/-! ## `Message` — the typed command codec (src/messages.rs)

The Rust `String` filename is modelled by its UTF-8 byte string: `to_wire`
writes `filename.as_bytes()` and `from_wire` takes `filename_len` raw bytes
back (its `map_res(.., std::str::from_utf8)` UTF-8 validation is the
identity on byte strings produced by serializing a `String`).  The
`SystemTime` field `created` is modelled by its whole-second offset from
`UNIX_EPOCH`, which is what `to_wire` transmits via
`duration_since(UNIX_EPOCH)?.as_secs()`. -/

/-- `Message` (src/messages.rs lines 14-44). -/
inductive Message where
  | hello
  | keepAlive (id : Nat)
  | countFilesToUpload (count : Nat)
  | file (filename : List Nat) (created : Nat) (size : Nat) (id : Nat)
  | fileChunk (id : Nat) (offset : Nat) (contentSize : Nat) (content : List Nat)
  | done
deriving Repr, DecidableEq

/-- `Message::get_max_content_size` (src/messages.rs lines 47-53): `mtu`
minus one byte of message tag, eight bytes of id, eight bytes of offset and
two bytes of `content_size`.  (`Nat` subtraction truncates where the
source's `usize` subtraction would underflow and panic.) -/
def Message.getMaxContentSize (mtu : Nat) : Nat :=
  mtu - (1 + 8 + 8 + 2)

/-- `MessageKind::to_u8` values (src/messages.rs lines 96-123). -/
def MessageKind.hello : Nat := 0
def MessageKind.keepAlive : Nat := 1
def MessageKind.countFilesToUpload : Nat := 2
def MessageKind.file : Nat := 3
def MessageKind.fileChunk : Nat := 4
def MessageKind.done : Nat := 5

/-- `Message::to_wire` (src/messages.rs lines 194-278), as the byte list
written.  `none` models a `to_wire` failure: `filename.len().try_into()?`
(`Error::IntegerConversion` when the filename exceeds `u16::MAX` bytes) and
the `&content[..content_size]` slice panic when the content buffer is
shorter than `content_size`. -/
def Message.toWire : Message → Option (List Nat)
  | .hello => some [MessageKind.hello]
  | .keepAlive id => some (MessageKind.keepAlive :: beBytes 8 id)
  | .countFilesToUpload count => some (MessageKind.countFilesToUpload :: beBytes 8 count)
  | .file filename created size id =>
    if filename.length < 2 ^ 16 then
      some (MessageKind.file :: beBytes 2 filename.length ++ filename ++
        beBytes 8 created ++ beBytes 8 size ++ beBytes 8 id)
    else none
  | .fileChunk id offset contentSize content =>
    if contentSize ≤ content.length then
      some (MessageKind.fileChunk :: beBytes 8 id ++ beBytes 8 offset ++
        beBytes 2 contentSize ++ content.take contentSize)
    else none
  | .done => some [MessageKind.done]

/-- nom's `take(n)` on a byte list (streaming: fails when fewer than `n`
bytes remain). -/
def takeBytes (n : Nat) (input : List Nat) : Option (List Nat × List Nat) :=
  if n ≤ input.length then some (input.take n, input.drop n) else none

/-- `Message::from_wire` (src/messages.rs lines 126-192): one tag byte, then
the variant body.  `none` models every parse failure (unknown tag,
insufficient bytes, invalid UTF-8, `SystemTime` overflow in
`UNIX_EPOCH.checked_add`). -/
def Message.fromWire (input : List Nat) : Option (List Nat × Message) := do
  match input with
  | [] => none
  | kind :: rest =>
    if kind = MessageKind.hello then
      some (rest, .hello)
    else if kind = MessageKind.keepAlive then do
      let (id, rest) ← takeBe 8 0 rest
      some (rest, .keepAlive id)
    else if kind = MessageKind.countFilesToUpload then do
      let (count, rest) ← takeBe 8 0 rest
      some (rest, .countFilesToUpload count)
    else if kind = MessageKind.file then do
      let (filenameLen, rest) ← takeBe 2 0 rest
      let (filename, rest) ← takeBytes filenameLen rest
      let (created, rest) ← takeBe 8 0 rest
      let (size, rest) ← takeBe 8 0 rest
      let (id, rest) ← takeBe 8 0 rest
      some (rest, .file filename created size id)
    else if kind = MessageKind.fileChunk then do
      let (id, rest) ← takeBe 8 0 rest
      let (offset, rest) ← takeBe 8 0 rest
      let (contentSize, rest) ← takeBe 2 0 rest
      let (content, rest) ← takeBytes contentSize rest
      some (rest, .fileChunk id offset contentSize content)
    else if kind = MessageKind.done then
      some (rest, .done)
    else none

/-- Well-formed messages (the claim's side conditions): every numeric field
fits its machine width, the filename is at most `65535` bytes, and a
`FileChunk`'s buffer holds exactly `content_size` bytes. -/
def Message.wf : Message → Prop
  | .hello => True
  | .keepAlive id => id < 2 ^ 64
  | .countFilesToUpload count => count < 2 ^ 64
  | .file filename created size id =>
    filename.length < 2 ^ 16 ∧ created < 2 ^ 64 ∧ size < 2 ^ 64 ∧ id < 2 ^ 64
  | .fileChunk id offset contentSize content =>
    id < 2 ^ 64 ∧ offset < 2 ^ 64 ∧ contentSize < 2 ^ 16 ∧
      content.length = contentSize
  | .done => True

instance (m : Message) : Decidable m.wf := by
  unfold Message.wf
  cases m <;> infer_instance

instance {ε α : Type} [DecidableEq ε] [DecidableEq α] :
    DecidableEq (Except ε α) := fun x y =>
  match x, y with
  | .error a, .error b =>
    if h : a = b then isTrue (h ▸ rfl)
    else isFalse fun hc => h (Except.error.inj hc)
  | .error _, .ok _ => isFalse fun hc => Except.noConfusion hc
  | .ok _, .error _ => isFalse fun hc => Except.noConfusion hc
  | .ok a, .ok b =>
    if h : a = b then isTrue (h ▸ rfl)
    else isFalse fun hc => h (Except.ok.inj hc)

/-! ## `Reassembler` — receiver-side reassembly (src/retransmit.rs lines 211-364)

The returned `Nat` in `getRestransmits`/`getNextData` counts the
`tracing::warn!` calls of `get_restransmits` ("Got a future session?!" and
"Missed chunk of data"); warnings have no other effect in the source. -/

/-- Errors of the reassembly path.  `noData`, `missingData` and
`deserialize` are the source's `Error::NoData`, `Error::MissingData` and
`Error::Deserialize`; `panic` models a Rust panic (an out-of-bounds slice
`&self.get_data()[..data_size]`, a failed `assert!` in `consume`, or an
`unwrap` of `None`), which is not a value of the source's `Error` enum. -/
inductive RErr where
  | noData
  | deserialize
  | missingData (lo hi : Nat)
  | panic
deriving Repr, DecidableEq

/-- `Reassembler` (src/retransmit.rs lines 212-224). -/
structure Reassembler where
  buffer : List Nat
  offset : Nat
  currentHeader : Option RetransmitHeader
  expectedId : Option Nat
deriving Repr, DecidableEq

/-- `Reassembler::new` (src/retransmit.rs lines 227-234); the config only
sizes the initial allocation. -/
def Reassembler.new : Reassembler :=
  { buffer := [], offset := 0, currentHeader := none, expectedId := none }

/-- `Reassembler::get_data` (src/retransmit.rs lines 236-238). -/
def Reassembler.getData (r : Reassembler) : List Nat :=
  r.buffer.drop r.offset

/-- `Reassembler::consume` (src/retransmit.rs lines 240-253): assert the
count fits, advance the cursor, drop the cached header; when the buffer
exceeds 4096 bytes, replace it by its tail from the cursor (`split_off` +
`swap`) — the source does *not* reset `offset` here. -/
def Reassembler.consume (r : Reassembler) (count : Nat) : Except RErr Reassembler :=
  if r.offset + count ≤ r.buffer.length then
    let r1 : Reassembler :=
      { r with offset := r.offset + count, currentHeader := none }
    if 4096 < r1.buffer.length then
      .ok { r1 with buffer := r1.buffer.drop r1.offset }
    else .ok r1
  else .error .panic

/-- `Reassembler::push_data` (src/retransmit.rs lines 255-258). -/
def Reassembler.pushData (r : Reassembler) (data : List Nat) : Reassembler :=
  { r with buffer := r.buffer ++ data }

/-- `Reassembler::load_header` (src/retransmit.rs lines 261-276): when no
header is cached, require 14 available bytes (else `NoData`), parse one
header, record the first id seen into `expected_id`, consume the header
bytes and cache it. -/
def Reassembler.loadHeader (r : Reassembler) :
    Except RErr (Reassembler × RetransmitHeader) :=
  match r.currentHeader with
  | some h => .ok (r, h)
  | none =>
    if r.getData.length < RetransmitHeader.byteSize then .error .noData
    else
      match RetransmitHeader.fromWire r.getData with
      | none => .error .deserialize
      | some (_, h) =>
        let r1 := if r.expectedId.isNone then { r with expectedId := some h.id } else r
        match r1.consume RetransmitHeader.byteSize with
        | .error e => .error e
        | .ok r2 => .ok ({ r2 with currentHeader := some h }, h)

/-- The `loop` of `Reassembler::get_restransmits` (src/retransmit.rs lines
286-329), with explicit fuel (the source loop terminates because every
`continue` has consumed a 14-byte header).  `expectedId` is the local
variable of the source; the `Nat` result counts the `tracing::warn!` calls.
Chunks whose id is below `expectedId` (or whose offset is below
`expectedOffset`) are consumed without touching `data`; a greater id is
adopted after a warning; on an offset match the loop breaks, the payload is
appended to `data` (`&self.get_data()[..data_size]`, a panic when fewer
than `data_size` bytes remain) and consumed. -/
def Reassembler.getRestransmitsLoop :
    Nat → Reassembler → List Nat → Nat → Nat → Nat →
    Except RErr (Reassembler × List Nat × RetransmitHeader × Nat)
  | 0, _, _, _, _, _ => .error .panic
  | fuel + 1, r, data, expectedOffset, expectedId, warns =>
    match r.loadHeader with
    | .error e => .error e
    | .ok (r1, h) =>
      if h.id < expectedId then
        match r1.consume h.size with
        | .error e => .error e
        | .ok r2 =>
          Reassembler.getRestransmitsLoop fuel r2 data expectedOffset expectedId warns
      else
        let eIdState : Nat × Reassembler × Nat :=
          if expectedId < h.id then
            (h.id, { r1 with expectedId := some h.id }, warns + 1)
          else (expectedId, r1, warns)
        let expectedId1 := eIdState.1
        let r2 := eIdState.2.1
        let warns1 := eIdState.2.2
        if h.offset < expectedOffset then
          match r2.consume h.size with
          | .error e => .error e
          | .ok r3 =>
            Reassembler.getRestransmitsLoop fuel r3 data expectedOffset expectedId1 warns1
        else if expectedOffset < h.offset then
          .error (.missingData expectedOffset h.offset)
        else
          let r3 := { r2 with currentHeader := none }
          if h.size ≤ r3.getData.length then
            let data1 := data ++ r3.getData.take h.size
            match r3.consume h.size with
            | .error e => .error e
            | .ok r4 => .ok (r4, data1, h, warns1)
          else .error .panic

/-- `Reassembler::get_restransmits` (src/retransmit.rs lines 278-340): load
a header (recording the first id), read the expected id, run the loop. -/
def Reassembler.getRestransmits (fuel : Nat) (r : Reassembler) (data : List Nat)
    (expectedOffset : Nat) :
    Except RErr (Reassembler × List Nat × RetransmitHeader × Nat) :=
  match r.loadHeader with
  | .error e => .error e
  | .ok (r1, _) =>
    match r1.expectedId with
    | none => .error .panic
    | some e => Reassembler.getRestransmitsLoop fuel r1 data expectedOffset e 0

/-- The `loop` of `Reassembler::get_next_data` (src/retransmit.rs lines
347-356): collect retransmits, advancing `expected_offset` by each consumed
header's `size`, until it equals the header's `total_size`. -/
def Reassembler.getNextDataLoop (ifuel : Nat) :
    Nat → Reassembler → List Nat → Nat → Nat →
    Except RErr (Reassembler × List Nat × Nat)
  | 0, _, _, _, _ => .error .panic
  | fuel + 1, r, data, expectedOffset, warns =>
    match Reassembler.getRestransmits ifuel r data expectedOffset with
    | .error e => .error e
    | .ok (r1, data1, h, w) =>
      if expectedOffset + h.size = h.totalSize then
        match r1.expectedId with
        | none => .error .panic
        | some e =>
          .ok ({ r1 with expectedId := some ((e + 1) % 2 ^ 32) }, data1, warns + w)
      else
        Reassembler.getNextDataLoop ifuel fuel r1 data1 (expectedOffset + h.size)
          (warns + w)

/-- `Reassembler::get_next_data` (src/retransmit.rs lines 343-363): assemble
one complete message, then increment `expected_id` (a `u32`, so the
increment wraps at `2^32`).  Fuel `buffer.length + 2` dominates both loops:
every header load consumes 14 bytes. -/
def Reassembler.getNextData (r : Reassembler) :
    Except RErr (Reassembler × List Nat × Nat) :=
  Reassembler.getNextDataLoop (r.buffer.length + 2) (r.buffer.length + 2) r [] 0 0

/-- The single-datagram envelope the sender emits for a payload `p` that
fits in one chunk: `Retransmit::prepare_buffer` at offset 0 serializes the
header `⟨0, len p, len p, id⟩` and appends `p` (the lemma
`Retransmit.send_single` below proves this is exactly what
`Retransmit::send` emits when the payload fits the MTU). -/
def singleFrame (p : List Nat) (id : Nat) : List Nat :=
  RetransmitHeader.toWire ⟨0, p.length, p.length, id⟩ ++ p

/-! ## `Client` — the sender's file chunking loop (src/connection/client.rs) -/

/-- The per-read content bound of `Client::send_file`
(src/connection/client.rs lines 83-84):
`Message::get_max_content_size(max_payload_size(config.mtu))`. -/
def clientContentMaxSize (mtu : Nat) : Nat :=
  Message.getMaxContentSize (maxPayloadSize mtu)

/-- The `while !done` loop of `Client::send_file` (src/connection/client.rs
lines 93-121), with explicit fuel: at position `pos`, read up to
`clientContentMaxSize mtu` bytes from the file, emit them as a `FileChunk`
whose `content_size` is the read size, and stop after emitting the
`content_size = 0` chunk at end of file.  (`f.read` on a regular file is
modelled as returning `min bound remaining` bytes.) -/
def Client.sendFileChunks (id mtu : Nat) : Nat → List Nat → Nat → List Message
  | 0, _, _ => []
  | fuel + 1, fileData, pos =>
    let chunk := (fileData.drop pos).take (clientContentMaxSize mtu)
    let msg := Message.fileChunk id pos chunk.length chunk
    if chunk.length = 0 then [msg]
    else Client.sendFileChunks id mtu fuel fileData (pos + chunk.length) |>.cons msg

/-- `Client::send_file` (src/connection/client.rs lines 72-124), as the list
of `FileChunk` messages it passes to `send_message`. -/
def Client.sendFile (id mtu : Nat) (fileData : List Nat) : List Message :=
  Client.sendFileChunks id mtu (fileData.length + 2) fileData 0

/-! ## `ClientHandler` — the per-peer handler (src/connection/server.rs) -/

/-- `ClientHandler::process_message_keep_alive` (src/connection/server.rs
lines 135-150): on the first id just store it; afterwards warn exactly when
the id is not the previous id plus one in wrapping `u64` arithmetic, and
always store the received id.  Returns (new stored id, warned?). -/
def ClientHandler.processKeepAlive : Option Nat → Nat → Option Nat × Bool
  | none, id => (some id, false)
  | some prev, id => (some id, decide (id ≠ (prev + 1) % 2 ^ 64))

/-- One component of a Rust `Path`: `..` or a normal component.  (`.`
components are elided by Rust's `Path::components`, and a leading root is
modelled by `RPath.absolute`.) -/
inductive PathComp where
  | parentDir
  | normal (s : String)
deriving Repr, BEq, DecidableEq

/-- A Rust `Path`/`PathBuf`, as its components. -/
structure RPath where
  absolute : Bool
  comps : List PathComp
deriving Repr, BEq, DecidableEq

/-- Rust `Path::join` (used at src/connection/server.rs line 168): an
absolute right operand replaces the base; otherwise components are
appended.  No normalization of `..` happens. -/
def RPath.join (base p : RPath) : RPath :=
  if p.absolute then p
  else { absolute := base.absolute, comps := base.comps ++ p.comps }

/-- Rust `Path::starts_with` (used at src/connection/server.rs line 169):
whole-component prefix comparison, without any normalization. -/
def RPath.startsWith (p base : RPath) : Bool :=
  p.absolute == base.absolute && base.comps.isPrefixOf p.comps

/-- Filesystem path resolution of `..` components (what the OS does when the
receiver actually opens the path): each `..` removes the preceding
component.  This is a specification-level function used to state where a
created file really lands; it has no counterpart in the source, which never
normalizes. -/
def normalizeComps (cs : List PathComp) : List PathComp :=
  cs.foldl
    (fun acc c =>
      match c with
      | .parentDir => acc.dropLast
      | .normal s => acc ++ [.normal s])
    []

/-- `ClientHandler::process_message_file` (src/connection/server.rs lines
160-194): join the filename onto the root; if the result does not
`starts_with` the root, drop the message (no directory or file creation, no
map insertion).  Otherwise create the file and insert `(id, offset 0)` into
`opened_files`.  The opened-files map is an association list `id ↦ expected
offset` (the file handle is abstracted away); the returned `Option RPath`
is the path of the file created by `crate::utils::fs::create_file`, `none`
when nothing is created (the `create_file` IO-error branch, which also
inserts nothing, is not modelled). -/
def ClientHandler.processMessageFile (root : RPath)
    (openedFiles : List (Nat × Nat)) (filename : RPath) (id : Nat) :
    List (Nat × Nat) × Option RPath :=
  let real := root.join filename
  if real.startsWith root then ((id, 0) :: openedFiles, some real)
  else (openedFiles, none)

/-- `ClientHandler::process_message_file_chunk` (src/connection/server.rs
lines 196-266): a zero `content_size` closes and removes the entry; an
unknown id is logged and dropped; otherwise the chunk is written (seeking
when the expected offset disagrees) and the expected offset becomes
`offset + content_size`.  Returns the new map and the write performed, as
`some (offset, content_size)`. -/
def ClientHandler.processMessageFileChunk (openedFiles : List (Nat × Nat))
    (id offset contentSize : Nat) :
    List (Nat × Nat) × Option (Nat × Nat) :=
  if contentSize = 0 then
    (openedFiles.filter (fun e => e.1 ≠ id), none)
  else
    match openedFiles.find? (fun e => e.1 == id) with
    | none => (openedFiles, none)
    | some _ =>
      (openedFiles.map (fun e => if e.1 = id then (e.1, offset + contentSize) else e),
        some (offset, contentSize))

/-! ## `Server` — the dispatcher (src/connection/server.rs lines 50-105) -/

/-- Outcome of handing a datagram to a per-peer handler queue.  `dropped`
never occurs in the code; it is the behaviour the specification describes
for a full queue. -/
inductive EnqueueOutcome where
  | delivered
  | blocked
  | dropped
deriving Repr, DecidableEq

/-- The enqueue step of `Server::recv_message` (src/connection/server.rs
line 94): `sender.send(buffer).await` on a tokio bounded mpsc channel of
capacity `config.channel_size`.  Modelled from the tokio semantics of
`Sender::send`: when the queue is full the send *awaits* (suspending the
dispatcher task) until capacity frees — it never discards the datagram. -/
def Server.enqueueToHandler (queue : List (List Nat)) (channelSize : Nat)
    (buffer : List Nat) : EnqueueOutcome × List (List Nat) :=
  if queue.length < channelSize then (.delivered, queue ++ [buffer])
  else (.blocked, queue)


/-! # Theorems

Everything from here on is proof: first the generic byte-level lemmas, then
the lemma layer for the reassembler state machine, then one theorem (plus
witness or counterexample) per specification claim. -/

@[simp] theorem length_beBytes (w n : Nat) : (beBytes w n).length = w := by
  induction w generalizing n with
  | zero => rfl
  | succ w ih => simp [beBytes, ih]

theorem beBytes_lt (w n : Nat) : ∀ b ∈ beBytes w n, b < 256 := by
  induction w generalizing n with
  | zero => simp [beBytes]
  | succ w ih =>
    intro b hb
    simp only [beBytes, List.mem_append, List.mem_singleton] at hb
    rcases hb with hb | hb
    · exact ih _ _ hb
    · subst hb; exact Nat.mod_lt _ (by omega)

theorem takeBe_of_length_eq (bs : List Nat) :
    ∀ (w acc : Nat) (rest : List Nat), bs.length = w →
      takeBe w acc (bs ++ rest) =
        some (bs.foldl (fun a b => a * 256 + b) acc, rest) := by
  induction bs with
  | nil =>
    intro w acc rest hw
    simp at hw
    subst hw
    simp [takeBe]
  | cons b bs ih =>
    intro w acc rest hw
    cases w with
    | zero => simp at hw
    | succ w =>
      simp only [List.length_cons, Nat.succ.injEq] at hw
      simpa [takeBe] using ih w (acc * 256 + b) rest hw

theorem foldl_beBytes (w n acc : Nat) :
    (beBytes w n).foldl (fun a b => a * 256 + b) acc = acc * 256 ^ w + n % 256 ^ w := by
  induction w generalizing n acc with
  | zero => simp [beBytes, Nat.mod_one]
  | succ w ih =>
    rw [beBytes, List.foldl_append, ih]
    simp only [List.foldl_cons, List.foldl_nil, pow_succ]
    rw [show n % (256 ^ w * 256) = n % 256 + 256 * (n / 256 % 256 ^ w) by
      rw [mul_comm]; exact Nat.mod_mul]
    ring

theorem takeBe_beBytes (w n acc : Nat) (rest : List Nat) (hn : n < 256 ^ w) :
    takeBe w acc (beBytes w n ++ rest) = some (acc * 256 ^ w + n, rest) := by
  rw [takeBe_of_length_eq _ _ _ _ (length_beBytes w n), foldl_beBytes,
    Nat.mod_eq_of_lt hn]

theorem takeBe_beBytes₀ (w n : Nat) (rest : List Nat) (hn : n < 256 ^ w) :
    takeBe w 0 (beBytes w n ++ rest) = some (n, rest) := by
  simpa using takeBe_beBytes w n 0 rest hn

theorem isPrefixOf_append (xs ys : List Nat) : xs.isPrefixOf (xs ++ ys) = true := by
  induction xs with
  | nil => simp [List.isPrefixOf]
  | cons x xs ih => simp [List.isPrefixOf, ih]

theorem pow256_two : (256 : Nat) ^ 2 = 2 ^ 16 := by norm_num

theorem pow256_four : (256 : Nat) ^ 4 = 2 ^ 32 := by norm_num

theorem pow256_eight : (256 : Nat) ^ 8 = 2 ^ 64 := by norm_num

/-- Header round-trip: parsing the wire form of a well-formed header whose
size fields are consistent returns the header and the trailing bytes. -/
theorem RetransmitHeader.fromWire_toWire (h : RetransmitHeader) (rest : List Nat)
    (hwf : h.wf) (hts : h.offset + h.size ≤ h.totalSize) :
    RetransmitHeader.fromWire (h.toWire ++ rest) = some (rest, h) := by
  obtain ⟨h1, h2, h3, h4⟩ := hwf
  rw [RetransmitHeader.toWire]
  simp only [List.append_assoc]
  simp only [RetransmitHeader.fromWire, isPrefixOf_append, if_true, List.drop_left,
    takeBe_beBytes₀ 2 h.offset _ (pow256_two ▸ h1),
    takeBe_beBytes₀ 2 h.size _ (pow256_two ▸ h2),
    takeBe_beBytes₀ 2 h.totalSize _ (pow256_two ▸ h3),
    takeBe_beBytes₀ 4 h.id _ (pow256_four ▸ h4),
    Bind.bind, Option.bind, hts, if_pos]

theorem RetransmitHeader.length_toWire (h : RetransmitHeader) :
    h.toWire.length = RetransmitHeader.byteSize := by
  simp [RetransmitHeader.toWire, RetransmitHeader.byteSize, RETRANSMIT_MAGIC]

theorem RetransmitHeader.byteSize_eq : RetransmitHeader.byteSize = 14 := rfl

theorem takeBytes_append (bs rest : List Nat) :
    takeBytes bs.length (bs ++ rest) = some (bs, rest) := by
  simp [takeBytes]

/-- Message codec round-trip on well-formed messages. -/
theorem Message.toWire_roundtrip (m : Message) (bs rest : List Nat)
    (hwf : m.wf) (henc : m.toWire = some bs) :
    Message.fromWire (bs ++ rest) = some (rest, m) := by
  cases m with
  | hello =>
    simp only [Message.toWire, Option.some.injEq] at henc
    subst henc
    simp [Message.fromWire, MessageKind.hello, MessageKind.keepAlive]
  | keepAlive id =>
    simp only [Message.toWire, Option.some.injEq] at henc
    subst henc
    simp only [Message.wf] at hwf
    simp [Message.fromWire, MessageKind.hello, MessageKind.keepAlive,
      takeBe_beBytes₀ 8 id rest (pow256_eight ▸ hwf), Bind.bind, Option.bind]
  | countFilesToUpload count =>
    simp only [Message.toWire, Option.some.injEq] at henc
    subst henc
    simp only [Message.wf] at hwf
    simp [Message.fromWire, MessageKind.hello, MessageKind.keepAlive,
      MessageKind.countFilesToUpload,
      takeBe_beBytes₀ 8 count rest (pow256_eight ▸ hwf), Bind.bind, Option.bind]
  | file filename created size id =>
    obtain ⟨h1, h2, h3, h4⟩ := hwf
    simp only [Message.toWire, h1, if_pos, Option.some.injEq] at henc
    subst henc
    simp only [Message.fromWire, MessageKind.hello, MessageKind.keepAlive,
      MessageKind.countFilesToUpload, MessageKind.file, List.cons_append,
      List.append_assoc]
    norm_num
    simp [takeBe_beBytes₀ 2 filename.length _ (pow256_two ▸ h1),
      takeBytes_append,
      takeBe_beBytes₀ 8 created _ (pow256_eight ▸ h2),
      takeBe_beBytes₀ 8 size _ (pow256_eight ▸ h3),
      takeBe_beBytes₀ 8 id _ (pow256_eight ▸ h4), Bind.bind, Option.bind]
  | fileChunk id offset contentSize content =>
    obtain ⟨h1, h2, h3, h4⟩ := hwf
    simp only [Message.toWire, h4.ge, if_pos, Option.some.injEq] at henc
    subst henc
    simp only [Message.fromWire, MessageKind.hello, MessageKind.keepAlive,
      MessageKind.countFilesToUpload, MessageKind.file, MessageKind.fileChunk,
      List.cons_append, List.append_assoc]
    norm_num
    rw [show content.take contentSize = content from h4 ▸ content.take_length]
    have ht : takeBytes contentSize (content ++ rest) = some (content, rest) :=
      h4 ▸ takeBytes_append content rest
    simp [takeBe_beBytes₀ 8 id _ (pow256_eight ▸ h1),
      takeBe_beBytes₀ 8 offset _ (pow256_eight ▸ h2),
      takeBe_beBytes₀ 2 contentSize _ (pow256_two ▸ h3), ht,
      Bind.bind, Option.bind]
  | done =>
    simp only [Message.toWire, Option.some.injEq] at henc
    subst henc
    simp [Message.fromWire, MessageKind.hello, MessageKind.keepAlive,
      MessageKind.countFilesToUpload, MessageKind.file, MessageKind.fileChunk,
      MessageKind.done]


/-! ### Reassembler state-machine lemmas

All lemmas below carry the side condition `buffer.length ≤ 4096`, under
which the `consume` compaction branch (whose missing cursor reset is
examined separately at claim C5) never fires. -/

theorem drop_add_of_drop_eq {b : List Nat} {o n : Nat} {xs ys : List Nat}
    (hd : b.drop o = xs ++ ys) (hn : xs.length = n) : b.drop (o + n) = ys := by
  have h1 : b.drop (o + n) = (b.drop o).drop n := by
    rw [List.drop_drop, Nat.add_comm]
  rw [h1, hd, ← hn, List.drop_left]

theorem Reassembler.consume_ok (b : List Nat) (o c : Nat)
    (ch : Option RetransmitHeader) (e : Option Nat)
    (hle : o + c ≤ b.length) (hsmall : b.length ≤ 4096) :
    (Reassembler.mk b o ch e).consume c =
      .ok (Reassembler.mk b (o + c) none e) := by
  simp [Reassembler.consume, hle, Nat.not_lt.mpr hsmall]

theorem Reassembler.loadHeader_cached (b : List Nat) (o : Nat)
    (h : RetransmitHeader) (e : Option Nat) :
    (Reassembler.mk b o (some h) e).loadHeader =
      .ok (Reassembler.mk b o (some h) e, h) := rfl

/-- `load_header` on a buffer whose unread part starts with a well-formed
serialized header: the header is parsed, consumed and cached, and an unset
`expected_id` records the header's id. -/
theorem Reassembler.loadHeader_parse (b : List Nat) (o : Nat) (e : Option Nat)
    (h : RetransmitHeader) (tail : List Nat)
    (hdata : b.drop o = h.toWire ++ tail)
    (hwf : h.wf) (hts : h.offset + h.size ≤ h.totalSize)
    (hsmall : b.length ≤ 4096) :
    (Reassembler.mk b o none e).loadHeader =
      .ok (Reassembler.mk b (o + RetransmitHeader.byteSize) (some h)
        (some (e.getD h.id)), h) := by
  have hbs := RetransmitHeader.byteSize_eq
  have hlen : b.length - o = RetransmitHeader.byteSize + tail.length := by
    have h2 := congrArg List.length hdata
    simpa [RetransmitHeader.length_toWire] using h2
  have hob : o + RetransmitHeader.byteSize ≤ b.length := by omega
  cases e with
  | none =>
    simp only [Reassembler.loadHeader, Reassembler.getData]
    rw [if_neg (by rw [List.length_drop]; omega)]
    rw [hdata, RetransmitHeader.fromWire_toWire h tail hwf hts]
    simp only [Option.isNone_none, if_true]
    rw [Reassembler.consume_ok b o RetransmitHeader.byteSize none (some h.id) hob hsmall]
    simp
  | some x =>
    simp only [Reassembler.loadHeader, Reassembler.getData]
    rw [if_neg (by rw [List.length_drop]; omega)]
    rw [hdata, RetransmitHeader.fromWire_toWire h tail hwf hts]
    simp only [Option.isNone_some, Bool.false_eq_true, if_false]
    rw [Reassembler.consume_ok b o RetransmitHeader.byteSize none (some x) hob hsmall]
    simp

/-- One iteration of the `get_restransmits` loop on a cached header with a
stale id (`id < expected_id`): the payload is consumed and discarded, and
nothing else changes. -/
theorem Reassembler.loopSkip_cached (fuel : Nat) (b : List Nat) (o : Nat)
    (eSt : Option Nat) (h : RetransmitHeader) (p tail data : List Nat)
    (eo eid w : Nat)
    (hdata : b.drop o = p ++ tail) (hp : p.length = h.size)
    (ho : o ≤ b.length) (hsmall : b.length ≤ 4096) (hid : h.id < eid) :
    Reassembler.getRestransmitsLoop (fuel + 1)
        (Reassembler.mk b o (some h) eSt) data eo eid w =
      Reassembler.getRestransmitsLoop fuel
        (Reassembler.mk b (o + h.size) none eSt) data eo eid w := by
  have hlen : b.length - o = p.length + tail.length := by
    have h2 := congrArg List.length hdata
    simpa using h2
  have hle : o + h.size ≤ b.length := by omega
  simp only [Reassembler.getRestransmitsLoop, Reassembler.loadHeader_cached]
  rw [if_pos hid]
  rw [Reassembler.consume_ok b o h.size (some h) eSt hle hsmall]

/-- One iteration of the `get_restransmits` loop that parses a header with a
stale id from the buffer and skips its payload. -/
theorem Reassembler.loopSkip_parse (fuel : Nat) (b : List Nat) (o : Nat)
    (e : Nat) (h : RetransmitHeader) (p tail data : List Nat) (eo w : Nat)
    (hdata : b.drop o = h.toWire ++ (p ++ tail)) (hp : p.length = h.size)
    (hwf : h.wf) (hts : h.offset + h.size ≤ h.totalSize)
    (hsmall : b.length ≤ 4096) (hid : h.id < e) :
    Reassembler.getRestransmitsLoop (fuel + 1)
        (Reassembler.mk b o none (some e)) data eo e w =
      Reassembler.getRestransmitsLoop fuel
        (Reassembler.mk b (o + RetransmitHeader.byteSize + h.size) none (some e))
        data eo e w := by
  have hbs := RetransmitHeader.byteSize_eq
  have hlen : b.length - o =
      RetransmitHeader.byteSize + (p.length + tail.length) := by
    have h2 := congrArg List.length hdata
    simpa [RetransmitHeader.length_toWire] using h2
  have hdata2 : b.drop (o + RetransmitHeader.byteSize) = p ++ tail :=
    drop_add_of_drop_eq hdata (RetransmitHeader.length_toWire h)
  have hle : o + RetransmitHeader.byteSize + h.size ≤ b.length := by omega
  simp only [Reassembler.getRestransmitsLoop,
    Reassembler.loadHeader_parse b o (some e) h (p ++ tail) hdata hwf hts hsmall,
    Option.getD_some]
  rw [if_pos hid]
  rw [Reassembler.consume_ok b (o + RetransmitHeader.byteSize) h.size (some h)
    (some e) hle hsmall]

/-- The breaking iteration of the `get_restransmits` loop on a cached header
whose id is current-or-future and whose offset matches: a future id is
adopted after exactly one warning, the payload is appended to `data` and
consumed, and the final `expected_id` is the header's id. -/
theorem Reassembler.loopMatch_cached (fuel : Nat) (b : List Nat) (o : Nat)
    (h : RetransmitHeader) (p tail data : List Nat) (eo e w : Nat)
    (hdata : b.drop o = p ++ tail) (hp : p.length = h.size)
    (ho : o ≤ b.length) (hsmall : b.length ≤ 4096)
    (hide : e ≤ h.id) (hoff : h.offset = eo) :
    Reassembler.getRestransmitsLoop (fuel + 1)
        (Reassembler.mk b o (some h) (some e)) data eo e w =
      .ok (Reassembler.mk b (o + h.size) none (some h.id), data ++ p, h,
        w + if e < h.id then 1 else 0) := by
  have hlen : b.length - o = p.length + tail.length := by
    have h2 := congrArg List.length hdata
    simpa using h2
  have hle : o + h.size ≤ b.length := by omega
  have htake : (b.drop o).take h.size = p := by
    rw [hdata, ← hp, List.take_left]
  have hgd : h.size ≤ (b.drop o).length := by
    rw [List.length_drop]; omega
  rcases Nat.lt_or_ge e h.id with hlt | hge
  · simp only [Reassembler.getRestransmitsLoop, Reassembler.loadHeader_cached,
      if_neg (show ¬ h.id < e by omega), if_pos hlt, Reassembler.getData,
      if_neg (show ¬ h.offset < eo by omega),
      if_neg (show ¬ eo < h.offset by omega), if_pos hgd, htake]
    rw [Reassembler.consume_ok b o h.size none (some h.id) hle hsmall]
  · have heq : h.id = e := by omega
    simp only [Reassembler.getRestransmitsLoop, Reassembler.loadHeader_cached,
      if_neg (show ¬ h.id < e by omega), if_neg (show ¬ e < h.id by omega),
      Reassembler.getData,
      if_neg (show ¬ h.offset < eo by omega),
      if_neg (show ¬ eo < h.offset by omega), if_pos hgd, htake]
    rw [Reassembler.consume_ok b o h.size none (some e) hle hsmall]
    simp [show ¬ e < h.id by omega, heq]

/-- The breaking iteration of the `get_restransmits` loop that parses the
matching header from the buffer. -/
theorem Reassembler.loopMatch_parse (fuel : Nat) (b : List Nat) (o : Nat)
    (h : RetransmitHeader) (p tail data : List Nat) (eo e w : Nat)
    (hdata : b.drop o = h.toWire ++ (p ++ tail)) (hp : p.length = h.size)
    (hwf : h.wf) (hts : h.offset + h.size ≤ h.totalSize)
    (hsmall : b.length ≤ 4096) (hide : e ≤ h.id) (hoff : h.offset = eo) :
    Reassembler.getRestransmitsLoop (fuel + 1)
        (Reassembler.mk b o none (some e)) data eo e w =
      .ok (Reassembler.mk b (o + RetransmitHeader.byteSize + h.size) none
          (some h.id), data ++ p, h, w + if e < h.id then 1 else 0) := by
  have hbs := RetransmitHeader.byteSize_eq
  have hlen : b.length - o =
      RetransmitHeader.byteSize + (p.length + tail.length) := by
    have h2 := congrArg List.length hdata
    simpa [RetransmitHeader.length_toWire] using h2
  have hdata2 : b.drop (o + RetransmitHeader.byteSize) = p ++ tail :=
    drop_add_of_drop_eq hdata (RetransmitHeader.length_toWire h)
  have hle : o + RetransmitHeader.byteSize + h.size ≤ b.length := by omega
  have htake : (b.drop (o + RetransmitHeader.byteSize)).take h.size = p := by
    rw [hdata2, ← hp, List.take_left]
  have hgd : h.size ≤ (b.drop (o + RetransmitHeader.byteSize)).length := by
    rw [List.length_drop]; omega
  rcases Nat.lt_or_ge e h.id with hlt | hge
  · simp only [Reassembler.getRestransmitsLoop,
      Reassembler.loadHeader_parse b o (some e) h (p ++ tail) hdata hwf hts hsmall,
      Option.getD_some,
      if_neg (show ¬ h.id < e by omega), if_pos hlt, Reassembler.getData,
      if_neg (show ¬ h.offset < eo by omega),
      if_neg (show ¬ eo < h.offset by omega), if_pos hgd, htake]
    rw [Reassembler.consume_ok b (o + RetransmitHeader.byteSize) h.size none
      (some h.id) hle hsmall]
  · have heq : h.id = e := by omega
    simp only [Reassembler.getRestransmitsLoop,
      Reassembler.loadHeader_parse b o (some e) h (p ++ tail) hdata hwf hts hsmall,
      Option.getD_some,
      if_neg (show ¬ h.id < e by omega), if_neg (show ¬ e < h.id by omega),
      Reassembler.getData,
      if_neg (show ¬ h.offset < eo by omega),
      if_neg (show ¬ eo < h.offset by omega), if_pos hgd, htake]
    rw [Reassembler.consume_ok b (o + RetransmitHeader.byteSize) h.size none
      (some e) hle hsmall]
    simp [show ¬ e < h.id by omega, heq]

/-- `get_restransmits` on a state with no cached header: the entry
`load_header` parses and caches the first header (recording its id when
`expected_id` is unset) and the loop runs with the recorded expected id. -/
theorem Reassembler.getRestransmits_parse (fuel : Nat) (b : List Nat) (o : Nat)
    (eOpt : Option Nat) (h : RetransmitHeader) (tail data : List Nat) (eo : Nat)
    (hdata : b.drop o = h.toWire ++ tail)
    (hwf : h.wf) (hts : h.offset + h.size ≤ h.totalSize)
    (hsmall : b.length ≤ 4096) :
    Reassembler.getRestransmits fuel (Reassembler.mk b o none eOpt) data eo =
      Reassembler.getRestransmitsLoop fuel
        (Reassembler.mk b (o + RetransmitHeader.byteSize) (some h)
          (some (eOpt.getD h.id)))
        data eo (eOpt.getD h.id) 0 := by
  simp only [Reassembler.getRestransmits,
    Reassembler.loadHeader_parse b o eOpt h tail hdata hwf hts hsmall]


/-- End-to-end: `get_next_data` on a state whose unread buffer starts with
one complete single-chunk frame, when the expected id (or, if unset, the
frame's own id, which then gets recorded) does not exceed the frame's id:
the frame's payload is returned, a strictly greater id is adopted with one
warning, and the final expected id is the frame's id plus one (wrapping at
`2^32`). -/
theorem Reassembler.getNextDataLoop_frame (jfuel ofuel : Nat) (b : List Nat)
    (o : Nat) (eOpt : Option Nat) (p tail data : List Nat) (id w : Nat)
    (hdata : b.drop o = singleFrame p id ++ tail)
    (hp : p.length < 2 ^ 16) (hid : id < 2 ^ 32)
    (hsmall : b.length ≤ 4096)
    (he : eOpt.getD id ≤ id) :
    Reassembler.getNextDataLoop (jfuel + 1) (ofuel + 1)
        (Reassembler.mk b o none eOpt) data 0 w =
      .ok (Reassembler.mk b (o + RetransmitHeader.byteSize + p.length) none
          (some ((id + 1) % 2 ^ 32)), data ++ p,
        w + if eOpt.getD id < id then 1 else 0) := by
  set h : RetransmitHeader := ⟨0, p.length, p.length, id⟩ with hh
  have hwf : h.wf := by
    refine ⟨by norm_num, hp, hp, hid⟩
  have hts : h.offset + h.size ≤ h.totalSize := by simp [hh]
  have hdata1 : b.drop o = h.toWire ++ (p ++ tail) := by
    rw [hdata, singleFrame, List.append_assoc]
  have hdata2 : b.drop (o + RetransmitHeader.byteSize) = p ++ tail :=
    drop_add_of_drop_eq hdata1 (RetransmitHeader.length_toWire h)
  have hbs := RetransmitHeader.byteSize_eq
  have hlen : b.length - o =
      RetransmitHeader.byteSize + (p.length + tail.length) := by
    have h2 := congrArg List.length hdata1
    simpa [RetransmitHeader.length_toWire] using h2
  have ho2 : o + RetransmitHeader.byteSize ≤ b.length := by omega
  simp only [Reassembler.getNextDataLoop,
    Reassembler.getRestransmits_parse (jfuel + 1) b o eOpt h (p ++ tail) data 0
      hdata1 hwf hts hsmall]
  rw [Reassembler.loopMatch_cached jfuel b (o + RetransmitHeader.byteSize) h
    (p) tail data 0 (eOpt.getD h.id) 0 hdata2 rfl ho2 hsmall he rfl]
  simp

/-- End-to-end: `get_next_data` on a buffer holding a stale single-chunk
frame (id strictly below the expected id) followed by a current one: the
stale frame is consumed and discarded without touching the output, the
second frame's payload is returned, and the expected id advances to the
second frame's id plus one. -/
theorem Reassembler.getNextData_skipStale (p q : List Nat) (i1 i2 e : Nat)
    (hp : p.length < 2 ^ 16) (hq : q.length < 2 ^ 16)
    (hi1 : i1 < 2 ^ 32) (hi2 : i2 < 2 ^ 32)
    (hst : i1 < e) (hle : e ≤ i2)
    (hsmall : (singleFrame p i1 ++ singleFrame q i2).length ≤ 4096) :
    Reassembler.getNextData
        (Reassembler.mk (singleFrame p i1 ++ singleFrame q i2) 0 none (some e)) =
      .ok (Reassembler.mk (singleFrame p i1 ++ singleFrame q i2)
          (0 + RetransmitHeader.byteSize + p.length +
            RetransmitHeader.byteSize + q.length) none
          (some ((i2 + 1) % 2 ^ 32)), q, if e < i2 then 1 else 0) := by
  set b : List Nat := singleFrame p i1 ++ singleFrame q i2 with hb
  set h1 : RetransmitHeader := ⟨0, p.length, p.length, i1⟩ with hh1
  set h2 : RetransmitHeader := ⟨0, q.length, q.length, i2⟩ with hh2
  have hwf1 : h1.wf := ⟨by norm_num, hp, hp, hi1⟩
  have hwf2 : h2.wf := ⟨by norm_num, hq, hq, hi2⟩
  have hts1 : h1.offset + h1.size ≤ h1.totalSize := by simp [hh1]
  have hts2 : h2.offset + h2.size ≤ h2.totalSize := by simp [hh2]
  have hbs := RetransmitHeader.byteSize_eq
  have hdata1 : b.drop 0 = h1.toWire ++ (p ++ singleFrame q i2) := by
    simp [hb, singleFrame, hh1, List.append_assoc]
  have hdata2 : b.drop (0 + RetransmitHeader.byteSize) = p ++ singleFrame q i2 :=
    drop_add_of_drop_eq hdata1 (RetransmitHeader.length_toWire h1)
  have hdata3 : b.drop (0 + RetransmitHeader.byteSize + p.length) =
      h2.toWire ++ (q ++ []) := by
    rw [drop_add_of_drop_eq hdata2 rfl, singleFrame, List.append_nil, hh2]
  have hlenb : b.length =
      RetransmitHeader.byteSize + p.length +
        (RetransmitHeader.byteSize + q.length) := by
    simp [hb, singleFrame, RetransmitHeader.length_toWire]
    omega
  have hsmall' : b.length ≤ 4096 := hsmall
  have ho2 : 0 + RetransmitHeader.byteSize ≤ b.length := by omega
  rw [Reassembler.getNextData]
  show Reassembler.getNextDataLoop (b.length + 2) (b.length + 2)
      (Reassembler.mk b 0 none (some e)) [] 0 0 = _
  rw [show b.length + 2 = (b.length + 1) + 1 from rfl]
  simp only [Reassembler.getNextDataLoop,
    Reassembler.getRestransmits_parse (b.length + 1 + 1) b 0 (some e) h1
      (p ++ singleFrame q i2) [] 0 hdata1 hwf1 hts1 hsmall',
    Option.getD_some]
  rw [show b.length + 1 + 1 = (b.length + 1) + 1 from rfl]
  rw [Reassembler.loopSkip_cached (b.length + 1) b (0 + RetransmitHeader.byteSize)
    (some e) h1 p (singleFrame q i2) [] 0 e 0 hdata2 rfl ho2 hsmall' hst]
  rw [show b.length + 1 = b.length + 1 from rfl]
  rw [show (b.length : Nat) + 1 = b.length + 1 from rfl]
  rw [Reassembler.loopMatch_parse b.length b
    (0 + RetransmitHeader.byteSize + h1.size) h2 q [] [] 0 e 0 hdata3 rfl
    hwf2 hts2 hsmall' hle rfl]
  simp


/-- `get_next_data` on a fresh reassembler holding exactly one single-chunk
frame: the payload round-trips and the recorded expected id advances to the
frame id plus one. -/
theorem Reassembler.getNextData_singleFrame (p : List Nat) (id : Nat)
    (hp : p.length < 2 ^ 16) (hid : id < 2 ^ 32)
    (hsmall : (singleFrame p id).length ≤ 4096) :
    (Reassembler.new.pushData (singleFrame p id)).getNextData =
      .ok (Reassembler.mk (singleFrame p id)
        (0 + RetransmitHeader.byteSize + p.length) none
        (some ((id + 1) % 2 ^ 32)), p, 0) := by
  have hst : Reassembler.new.pushData (singleFrame p id) =
      Reassembler.mk (singleFrame p id) 0 none none := by
    simp [Reassembler.new, Reassembler.pushData]
  rw [hst, Reassembler.getNextData]
  have h1 := Reassembler.getNextDataLoop_frame
    ((singleFrame p id).length + 1) ((singleFrame p id).length + 1)
    (singleFrame p id) 0 none p [] [] id 0 (by simp) hp hid hsmall (by simp)
  simpa using h1

/-! ### Sender emission lemmas -/

/-- When the whole payload fits one chunk, the emission loop yields
`R + 1 - c` copies of the single frame (where `c` is the current emission
counter). -/
theorem Retransmit.sendChunks_fits (fuel : Nat) :
    ∀ (c R mtu id : Nat) (p buf : List Nat) (s : Nat),
      p.length + RetransmitHeader.byteSize ≤ mtu →
      R + 1 - c ≤ fuel → 1 ≤ c →
      Retransmit.sendChunks fuel ⟨⟨0, s, p.length, id⟩, mtu, c, R, p, buf⟩ =
        List.replicate (R + 1 - c) (singleFrame p id) := by
  induction fuel with
  | zero =>
    intro c R mtu id p buf s hfit hfuel hc
    have hz : R + 1 - c = 0 := by omega
    rw [hz]
    rfl
  | succ fuel ih =>
    intro c R mtu id p buf s hfit hfuel hc
    rcases le_or_lt c R with hcR | hcR
    · have hchunk : (Retransmit.mk ⟨0, s, p.length, id⟩ mtu c R p buf).getChunk = p := by
        simp only [Retransmit.getChunk, List.drop_zero]
        rw [if_neg (by omega)]
      have hrep : R + 1 - c = (R + 1 - (c + 1)) + 1 := by omega
      simp only [Retransmit.sendChunks, Retransmit.getNextChunk, if_pos hcR,
        Retransmit.prepareBuffer, hchunk]
      rw [ih (c + 1) R mtu id p _ p.length hfit (by omega) (by omega)]
      rw [hrep, List.replicate_succ]
      rfl
    · have hz : R + 1 - c = 0 := by omega
      simp only [Retransmit.sendChunks, Retransmit.getNextChunk,
        if_neg (by omega : ¬ c ≤ R)]
      rw [if_neg (by simp; omega), hz]
      rfl

/-- `Retransmit::send` of a payload that fits one chunk emits exactly
`remission_count` copies of the single frame. -/
theorem Retransmit.send_single (p : List Nat) (R mtu id : Nat) (r : Retransmit)
    (hnew : Retransmit.new p R mtu id = some r)
    (hfit : p.length + RetransmitHeader.byteSize ≤ mtu) :
    r.send = List.replicate R (singleFrame p id) := by
  rw [Retransmit.new] at hnew
  by_cases hcond : p.length < 2 ^ 16 ∧ mtu < 2 ^ 16
  case neg =>
    rw [if_neg hcond] at hnew
    exact absurd hnew (by simp)
  rw [if_pos hcond] at hnew
  have hr := (Option.some.inj hnew).symm
  subst hr
  have hreset : (Retransmit.mk ⟨0, 0, p.length, id⟩ mtu 1 R p []).reset =
      ⟨⟨0, 0, p.length, id⟩, mtu, 1, R, p, []⟩ := rfl
  rw [Retransmit.send, hreset]
  have hfuel : R + 1 - 1 ≤ (R + 2) * (p.length + 2) := by
    calc R + 1 - 1 = R := by omega
    _ ≤ (R + 2) * 1 := by omega
    _ ≤ (R + 2) * (p.length + 2) := Nat.mul_le_mul_left _ (by omega)
  have h1 := Retransmit.sendChunks_fits ((R + 2) * (p.length + 2)) 1 R mtu id p
    [] 0 hfit hfuel (by omega)
  simpa using h1

/-- Every buffer prepared by `prepare_buffer` fits the MTU (the chunk is cut
to `mtu - header size` whenever the remaining data would overflow it). -/
theorem Retransmit.prepareBuffer_length (r : Retransmit)
    (hmtu : RetransmitHeader.byteSize ≤ r.mtu) :
    r.prepareBuffer.buffer.length ≤ r.mtu := by
  have hbs := RetransmitHeader.byteSize_eq
  simp only [Retransmit.prepareBuffer, List.length_append,
    RetransmitHeader.length_toWire]
  rw [Retransmit.getChunk]
  split
  · rename_i hgt
    simp only [List.length_take]
    omega
  · rename_i hle
    push_neg at hle
    omega

/-- `get_next_chunk` preserves the MTU and yields chunks within it. -/
theorem Retransmit.getNextChunk_length (r r' : Retransmit) (c : List Nat)
    (hmtu : RetransmitHeader.byteSize ≤ r.mtu)
    (hstep : r.getNextChunk = some (r', c)) :
    c.length ≤ r.mtu ∧ r'.mtu = r.mtu := by
  rw [Retransmit.getNextChunk] at hstep
  by_cases hce : r.currentEmission ≤ r.totalEmissions
  · rw [if_pos hce] at hstep
    cases hstep
    exact ⟨Retransmit.prepareBuffer_length r hmtu, rfl⟩
  · rw [if_neg hce] at hstep
    by_cases hoff : r.header.offset + (r.mtu - RetransmitHeader.byteSize) <
        r.header.totalSize
    · rw [if_pos hoff] at hstep
      cases hstep
      exact ⟨Retransmit.prepareBuffer_length _ hmtu, rfl⟩
    · rw [if_neg hoff] at hstep
      cases hstep

/-- Every datagram handed to `socket.send` by the emission loop is at most
`mtu` bytes long. -/
theorem Retransmit.sendChunks_length (fuel : Nat) :
    ∀ (r : Retransmit), RetransmitHeader.byteSize ≤ r.mtu →
      ∀ c ∈ Retransmit.sendChunks fuel r, c.length ≤ r.mtu := by
  induction fuel with
  | zero => intro r hmtu c hc; simp [Retransmit.sendChunks] at hc
  | succ fuel ih =>
    intro r hmtu c hc
    rw [Retransmit.sendChunks] at hc
    rcases hstep : r.getNextChunk with _ | ⟨r', ch⟩
    · rw [hstep] at hc; simp at hc
    · rw [hstep] at hc
      simp only [List.mem_cons] at hc
      obtain ⟨hch, hm⟩ := Retransmit.getNextChunk_length r r' ch hmtu hstep
      rcases hc with hc | hc
      · exact hc ▸ hch
      · have := ih r' (hm ▸ hmtu) c hc
        omega


/-! ### The compaction path of `consume` (buffer over 4096 bytes)

`Reassembler::consume` shrinks the buffer to its tail from the *new* cursor
but leaves the cursor value unchanged (src/retransmit.rs lines 245-252), so
after a compaction every later read skips `offset` extra bytes. -/

theorem Reassembler.consume_compact (b : List Nat) (o c : Nat)
    (ch : Option RetransmitHeader) (e : Option Nat)
    (hle : o + c ≤ b.length) (hbig : 4096 < b.length) :
    (Reassembler.mk b o ch e).consume c =
      .ok (Reassembler.mk (b.drop (o + c)) (o + c) none e) := by
  simp [Reassembler.consume, hle, hbig]

/-- `load_header` on an over-4096 buffer: parsing succeeds, but the
`consume` of the header bytes compacts the buffer without resetting the
cursor. -/
theorem Reassembler.loadHeader_parse_compact (b : List Nat) (o : Nat)
    (e : Option Nat) (h : RetransmitHeader) (tail : List Nat)
    (hdata : b.drop o = h.toWire ++ tail)
    (hwf : h.wf) (hts : h.offset + h.size ≤ h.totalSize)
    (hbig : 4096 < b.length) :
    (Reassembler.mk b o none e).loadHeader =
      .ok (Reassembler.mk (b.drop (o + RetransmitHeader.byteSize))
        (o + RetransmitHeader.byteSize) (some h) (some (e.getD h.id)), h) := by
  have hbs := RetransmitHeader.byteSize_eq
  have hlen : b.length - o = RetransmitHeader.byteSize + tail.length := by
    have h2 := congrArg List.length hdata
    simpa [RetransmitHeader.length_toWire] using h2
  have hob : o + RetransmitHeader.byteSize ≤ b.length := by omega
  cases e with
  | none =>
    simp only [Reassembler.loadHeader, Reassembler.getData]
    rw [if_neg (by rw [List.length_drop]; omega)]
    rw [hdata, RetransmitHeader.fromWire_toWire h tail hwf hts]
    simp only [Option.isNone_none, if_true]
    rw [Reassembler.consume_compact b o RetransmitHeader.byteSize none
      (some h.id) hob hbig]
    simp
  | some x =>
    simp only [Reassembler.loadHeader, Reassembler.getData]
    rw [if_neg (by rw [List.length_drop]; omega)]
    rw [hdata, RetransmitHeader.fromWire_toWire h tail hwf hts]
    simp only [Option.isNone_some, Bool.false_eq_true, if_false]
    rw [Reassembler.consume_compact b o RetransmitHeader.byteSize none
      (some x) hob hbig]
    simp

/-- `get_restransmits` entry on an over-4096 buffer with no cached header. -/
theorem Reassembler.getRestransmits_parse_compact (fuel : Nat) (b : List Nat)
    (o : Nat) (eOpt : Option Nat) (h : RetransmitHeader) (tail data : List Nat)
    (eo : Nat)
    (hdata : b.drop o = h.toWire ++ tail)
    (hwf : h.wf) (hts : h.offset + h.size ≤ h.totalSize)
    (hbig : 4096 < b.length) :
    Reassembler.getRestransmits fuel (Reassembler.mk b o none eOpt) data eo =
      Reassembler.getRestransmitsLoop fuel
        (Reassembler.mk (b.drop (o + RetransmitHeader.byteSize))
          (o + RetransmitHeader.byteSize) (some h) (some (eOpt.getD h.id)))
        data eo (eOpt.getD h.id) 0 := by
  simp only [Reassembler.getRestransmits,
    Reassembler.loadHeader_parse_compact b o eOpt h tail hdata hwf hts hbig]


/-- The sender's per-chunk bound evaluates to `mtu - 33`: 14 bytes of
envelope header, 1 byte of tag, 8 of id, 8 of offset, 2 of `content_size`. -/
theorem clientContentMaxSize_eq (mtu : Nat) :
    clientContentMaxSize mtu = mtu - 33 := by
  rw [clientContentMaxSize, Message.getMaxContentSize, maxPayloadSize,
    RetransmitHeader.byteSize_eq]
  omega

/-- Every message emitted by the `send_file` loop is a `FileChunk` for the
file's id whose `content_size` is at most the per-read bound. -/
theorem Client.sendFileChunks_bound (id mtu : Nat) (fuel : Nat) :
    ∀ (fileData : List Nat) (pos : Nat) (m : Message),
      m ∈ Client.sendFileChunks id mtu fuel fileData pos →
      ∃ off cs c, m = .fileChunk id off cs c ∧ cs ≤ clientContentMaxSize mtu := by
  induction fuel with
  | zero =>
    intro fileData pos m hm
    simp [Client.sendFileChunks] at hm
  | succ fuel ih =>
    intro fileData pos m hm
    rw [Client.sendFileChunks] at hm
    set chunk := (fileData.drop pos).take (clientContentMaxSize mtu) with hchunk
    have hcl : chunk.length ≤ clientContentMaxSize mtu := by
      rw [hchunk, List.length_take]
      exact min_le_left _ _
    by_cases hz : chunk.length = 0
    · rw [if_pos hz] at hm
      simp only [List.mem_singleton] at hm
      exact ⟨pos, chunk.length, chunk, hm, hcl⟩
    · rw [if_neg hz] at hm
      simp only [List.mem_cons] at hm
      rcases hm with hm | hm
      · exact ⟨pos, chunk.length, chunk, hm, hcl⟩
      · exact ih fileData (pos + chunk.length) m hm


/-! ## Claim theorems -/

/-- C5: failing input for the duplicate-suppression claim.  Pushing the
same 2049-byte frame (a 14-byte header plus a 2035-byte payload of sevens)
twice — 4098 bytes in all — into a fresh `Reassembler` and draining it does
yield exactly one payload, but not a copy of the chunk's payload: because
`consume` compacts the over-4096 buffer without resetting the read cursor,
the returned bytes are the payload's tail followed by the second copy's
header. -/
theorem C5_compaction_loses_payload :
    (Reassembler.new.pushData (singleFrame (List.replicate 2035 7) 0 ++
        singleFrame (List.replicate 2035 7) 0)).getNextData =
      .ok (Reassembler.mk
        ((singleFrame (List.replicate 2035 7) 0 ++
          singleFrame (List.replicate 2035 7) 0).drop 14) 2049 none (some 1),
        List.replicate 2021 7 ++
          RetransmitHeader.toWire ⟨0, 2035, 2035, 0⟩, 0) ∧
    List.replicate 2021 7 ++ RetransmitHeader.toWire ⟨0, 2035, 2035, 0⟩ ≠
      List.replicate 2035 7 := by
  constructor
  · set p : List Nat := List.replicate 2035 7 with hpdef
    set h : RetransmitHeader := ⟨0, 2035, 2035, 0⟩ with hhdef
    set b : List Nat := singleFrame p 0 ++ singleFrame p 0 with hbdef
    have hsf : singleFrame p 0 = h.toWire ++ p := by
      rw [singleFrame, hpdef, hhdef, List.length_replicate]
    have hlw : h.toWire.length = 14 := by
      rw [RetransmitHeader.length_toWire, RetransmitHeader.byteSize_eq]
    have hsl : (h.toWire ++ p).length = 2049 := by
      simp only [List.length_append, hlw, hpdef, List.length_replicate]
    have hlb : b.length = 4098 := by
      simp only [hbdef, hsf, List.length_append, hlw, hpdef, List.length_replicate]
    have hwf : h.wf := by rw [hhdef]; decide
    have hts : h.offset + h.size ≤ h.totalSize := by rw [hhdef]; decide
    have hsz : h.size = 2035 := by rw [hhdef]
    have htot : h.totalSize = 2035 := by rw [hhdef]
    have hidz : h.id = 0 := by rw [hhdef]
    have hoffz : h.offset = 0 := by rw [hhdef]
    have hbig : 4096 < b.length := by omega
    have hdata1 : b.drop 0 = h.toWire ++ (p ++ singleFrame p 0) := by
      rw [List.drop_zero, hbdef, hsf, List.append_assoc]
    have hd28 : (b.drop 14).drop 14 = List.replicate 2021 7 ++ (h.toWire ++ p) := by
      rw [List.drop_drop]
      rw [show (14 + 14 : Nat) = 28 from rfl]
      rw [hbdef, hsf, List.drop_append_eq_append_drop,
        List.drop_append_eq_append_drop, hlw, hsl]
      rw [show (28 - 14 : Nat) = 14 from rfl, show (28 - 2049 : Nat) = 0 from rfl]
      rw [List.drop_eq_nil_of_le (by rw [hlw]; omega)]
      rw [hpdef, List.drop_replicate]
      rw [show (2035 - 14 : Nat) = 2021 from rfl]
      simp only [List.nil_append, List.drop_zero]
    have hp' : ((b.drop 14).drop 14).take 2035 =
        List.replicate 2021 7 ++ h.toWire := by
      rw [hd28, List.take_append_eq_append_take, List.length_replicate]
      rw [show (2035 - 2021 : Nat) = 14 from rfl]
      rw [List.take_replicate]
      rw [show (2035 ⊓ 2021 : Nat) = 2021 from min_eq_right (by omega)]
      rw [List.take_append_eq_append_take, hlw]
      rw [show (14 - 14 : Nat) = 0 from rfl]
      rw [List.take_of_length_le (le_of_eq hlw)]
      simp only [List.take_zero, List.append_nil]
    have hsplit : (b.drop 14).drop 14 =
        ((b.drop 14).drop 14).take 2035 ++ ((b.drop 14).drop 14).drop 2035 :=
      (List.take_append_drop _ _).symm
    have hlenp' : (((b.drop 14).drop 14).take 2035).length = h.size := by
      rw [List.length_take, List.drop_drop, List.length_drop, hlb, hsz]
      norm_num
    have hstate : Reassembler.new.pushData b = Reassembler.mk b 0 none none := by
      simp only [Reassembler.new, Reassembler.pushData, List.nil_append]
    rw [hstate, Reassembler.getNextData]
    show Reassembler.getNextDataLoop (b.length + 2) (b.length + 2)
        (Reassembler.mk b 0 none none) [] 0 0 = _
    rw [hlb]
    rw [show (4098 : Nat) + 2 = 4099 + 1 from rfl]
    rw [Reassembler.getNextDataLoop]
    rw [Reassembler.getRestransmits_parse_compact (4099 + 1) b 0 none h
      (p ++ singleFrame p 0) [] 0 hdata1 hwf hts hbig]
    simp only [Option.getD_none, Nat.zero_add, RetransmitHeader.byteSize_eq]
    rw [Reassembler.loopMatch_cached 4099 (b.drop 14) 14 h
      (((b.drop 14).drop 14).take 2035) (((b.drop 14).drop 14).drop 2035)
      [] 0 h.id 0 hsplit hlenp'
      (by rw [List.length_drop, hlb]; omega)
      (by rw [List.length_drop, hlb]; omega)
      (le_refl _) hoffz]
    simp only [List.nil_append, hp', hsz, htot, hidz, lt_irrefl, if_false]
    norm_num
  · intro heq
    have h2 : List.replicate 2035 7 =
        List.replicate 2021 7 ++ List.replicate 14 7 :=
      List.replicate_add 2021 14 7
    rw [h2] at heq
    have h3 := List.append_cancel_left heq
    exact absurd h3 (by decide)


/-- C1 (amended): the framing header is 14 bytes — the magic `"1WAY"`, then
`offset`, `size`, `total_size` as big-endian `u16` and `id` as big-endian
`u32` — so `max_payload_size(mtu) = mtu - 14`; a payload that fits one chunk
is sent as `remission_count` copies of `header ++ payload`, the header
parses back, and a fresh reassembler returns exactly the payload. -/
theorem C1_framing (p : List Nat) (id mtu R : Nat) (r : Retransmit)
    (hp : p.length < 2 ^ 16) (hid : id < 2 ^ 32)
    (hsmall : (singleFrame p id).length ≤ 4096)
    (hfit : p.length + RetransmitHeader.byteSize ≤ mtu)
    (hnew : Retransmit.new p R mtu id = some r) :
    RetransmitHeader.byteSize = 14 ∧
    (∀ m : Nat, maxPayloadSize m = m - 14) ∧
    r.send = List.replicate R (singleFrame p id) ∧
    singleFrame p id =
      RETRANSMIT_MAGIC ++ beBytes 2 0 ++ beBytes 2 p.length ++
        beBytes 2 p.length ++ beBytes 4 id ++ p ∧
    RetransmitHeader.fromWire (singleFrame p id) =
      some (p, ⟨0, p.length, p.length, id⟩) ∧
    (Reassembler.new.pushData (singleFrame p id)).getNextData =
      .ok (Reassembler.mk (singleFrame p id)
        (0 + RetransmitHeader.byteSize + p.length) none
        (some ((id + 1) % 2 ^ 32)), p, 0) := by
  have hwf : RetransmitHeader.wf ⟨0, p.length, p.length, id⟩ :=
    ⟨by norm_num, hp, hp, hid⟩
  refine ⟨rfl, ?_, ?_, ?_, ?_, ?_⟩
  · intro m
    rw [maxPayloadSize, RetransmitHeader.byteSize_eq]
  · exact Retransmit.send_single p R mtu id r hnew hfit
  · rw [singleFrame, RetransmitHeader.toWire]
  · rw [singleFrame]
    exact RetransmitHeader.fromWire_toWire ⟨0, p.length, p.length, id⟩ p hwf
      (by simp)
  · exact Reassembler.getNextData_singleFrame p id hp hid hsmall

/-- C1 witness: the amended claim at the one-byte payload `[171]` with id 7
and `mtu = 1024` — the sender's single emission is exactly the 15-byte
frame. -/
theorem C1_framing_witness :
    (Retransmit.mk ⟨0, 0, 1, 7⟩ 1024 1 1 [171] []).send =
      List.replicate 1 (singleFrame [171] 7) :=
  (C1_framing [171] 7 1024 1 (Retransmit.mk ⟨0, 0, 1, 7⟩ 1024 1 1 [171] [])
    (by decide) (by decide) (by decide) (by decide) (by decide)).2.2.1

/-- C1 counterexample: the claim's 6-byte header is false on the code — at
`mtu = 1024` the maximum payload is `1010 = 1024 - 14`, not `1024 - 6`, and
in the emitted envelope for the payload `[171]` the two bytes after the
magic are the big-endian `offset` field (zero), not the payload length. -/
theorem C1_counterexample :
    maxPayloadSize 1024 ≠ 1024 - 6 ∧
    ((Retransmit.new [171] 1 1024 7).map fun r => r.send) =
      some [[49, 87, 65, 89, 0, 0, 0, 1, 0, 1, 0, 0, 0, 7, 171]] ∧
    ([49, 87, 65, 89, 0, 0, 0, 1, 0, 1, 0, 0, 0, 7, 171].drop 4).take 2 ≠
      beBytes 2 1 := by decide

/-- C2 (amended): a serialized message longer than the per-chunk capacity is
not refused — there is no `PayloadTooLarge` error in the code.  For any
message of at most 65535 bytes and any `14 ≤ mtu ≤ 65535`,
`Retransmit::new` succeeds, `send` transmits at least one datagram
(fragmenting the message), and every transmitted datagram is at most `mtu`
bytes long. -/
theorem C2_oversize_fragments (p : List Nat) (R mtu id : Nat)
    (hp : p.length < 2 ^ 16) (hmtu14 : RetransmitHeader.byteSize ≤ mtu)
    (hmtu : mtu < 2 ^ 16) (hR : 1 ≤ R) :
    ∃ r, Retransmit.new p R mtu id = some r ∧ r.send ≠ [] ∧
      ∀ d ∈ r.send, d.length ≤ mtu := by
  refine ⟨⟨⟨0, 0, p.length, id⟩, mtu, 1, R, p, []⟩, ?_, ?_, ?_⟩
  · rw [Retransmit.new, if_pos ⟨hp, hmtu⟩]
  · rw [Retransmit.send]
    have h4 : 1 ≤ (R + 2) * (p.length + 2) :=
      Nat.one_le_iff_ne_zero.mpr (Nat.mul_ne_zero (by omega) (by omega))
    obtain ⟨f, hf⟩ : ∃ f, (R + 2) * (p.length + 2) = f + 1 :=
      ⟨(R + 2) * (p.length + 2) - 1, by omega⟩
    show Retransmit.sendChunks ((R + 2) * (p.length + 2))
        (Retransmit.mk ⟨0, 0, p.length, id⟩ mtu 1 R p []) ≠ []
    rw [hf, Retransmit.sendChunks, Retransmit.getNextChunk, if_pos hR]
    simp
  · intro d hd
    exact Retransmit.sendChunks_length _ _ hmtu14 d hd

/-- C2 witness: the amended claim at a 3-byte message with `mtu = 32`. -/
theorem C2_oversize_fragments_witness :
    ∃ r, Retransmit.new [1, 2, 3] 1 32 0 = some r ∧ r.send ≠ [] ∧
      ∀ d ∈ r.send, d.length ≤ 32 :=
  C2_oversize_fragments [1, 2, 3] 1 32 0 (by decide) (by decide) (by decide)
    (by decide)

/-- C2 counterexample: with `mtu = 32` a 227-byte serialized message (the
claimed `PayloadTooLarge` case, since `227 + 6 > 32`) is accepted by
`Retransmit::new` and `send` transmits 51 datagrams instead of refusing. -/
theorem C2_counterexample :
    ((Retransmit.new (List.replicate 227 65) 3 32 0).map
      (fun r => r.send.length)) = some 51 ∧ 32 < 227 + 6 := by
  set_option maxRecDepth 4000 in decide

/-- C3 (amended): the sender's per-chunk content bound is
`max_content_size(max_payload_size(mtu)) = mtu - 14 - 1 - 8 - 8 - 2 =
mtu - 33` (not `mtu - 25`: the envelope header is 14 bytes, not 6), and
every message the `send_file` loop emits is a `FileChunk` whose
`content_size` is at most that bound. -/
theorem C3_content_bound (id mtu : Nat) (fileData : List Nat) (m : Message)
    (hm : m ∈ Client.sendFile id mtu fileData) :
    clientContentMaxSize mtu = mtu - 33 ∧
    ∃ off cs c, m = .fileChunk id off cs c ∧ cs ≤ mtu - 33 := by
  refine ⟨clientContentMaxSize_eq mtu, ?_⟩
  obtain ⟨off, cs, c, hmeq, hcs⟩ :=
    Client.sendFileChunks_bound id mtu (fileData.length + 2) fileData 0 m hm
  exact ⟨off, cs, c, hmeq, by rw [← clientContentMaxSize_eq mtu]; exact hcs⟩

/-- C3 witness: the amended claim for a 2-byte file at `mtu = 100`. -/
theorem C3_content_bound_witness :
    clientContentMaxSize 100 = 100 - 33 ∧
    ∃ off cs c, (Message.fileChunk 1 0 2 [9, 9] : Message) =
      .fileChunk 1 off cs c ∧ cs ≤ 100 - 33 :=
  C3_content_bound 1 100 [9, 9] (Message.fileChunk 1 0 2 [9, 9]) (by decide)

/-- C3 counterexample: at `mtu = 100` the code's bound is `67 = 100 - 33`,
not the claimed `100 - 25 = 75`. -/
theorem C3_counterexample :
    clientContentMaxSize 100 = 67 ∧ 100 - 25 = 75 ∧
    clientContentMaxSize 100 ≠ 100 - 25 := by decide


/-- C4: message codec round-trip — deserializing the serialization of any
well-formed message (filename within 65535 UTF-8 bytes, whole-second
timestamps, `FileChunk` buffer of exactly `content_size` bytes) returns the
message and leaves trailing input untouched; and only the leading
`content_size` bytes of a `FileChunk` buffer reach the wire. -/
theorem C4_message_roundtrip :
    (∀ (m : Message) (bs rest : List Nat), m.wf → m.toWire = some bs →
        Message.fromWire (bs ++ rest) = some (rest, m)) ∧
    (∀ (id off cs : Nat) (c extra : List Nat), cs ≤ c.length →
        (Message.fileChunk id off cs (c ++ extra)).toWire =
          (Message.fileChunk id off cs c).toWire) := by
  constructor
  · exact fun m bs rest hwf henc => Message.toWire_roundtrip m bs rest hwf henc
  · intro id off cs c extra hcs
    simp only [Message.toWire]
    rw [if_pos (by rw [List.length_append]; omega), if_pos hcs,
      List.take_append_of_le_length hcs]

/-- C4 witness: round-trip of `KeepAlive 5` with one byte of trailing
input, and the on-wire-prefix law at `content_size = 1`. -/
theorem C4_message_roundtrip_witness :
    Message.fromWire ([1, 0, 0, 0, 0, 0, 0, 0, 5] ++ [9]) =
      some ([9], Message.keepAlive 5) ∧
    (Message.fileChunk 3 0 1 ([6] ++ [7])).toWire =
      (Message.fileChunk 3 0 1 [6]).toWire :=
  ⟨C4_message_roundtrip.1 (Message.keepAlive 5) [1, 0, 0, 0, 0, 0, 0, 0, 5]
      [9] (by decide) (by decide),
    C4_message_roundtrip.2 3 0 1 [6] [7] (by decide)⟩

/-- C6: failing input for partial-frame patience.  A proper prefix holding
the complete 14-byte header but only one of the two payload bytes makes
`get_next_data` panic (the out-of-bounds slice
`&self.get_data()[..data_size]`), not return a benign incomplete result;
prefixes shorter than the header do return the benign `NoData`, and after
the remainder arrives the payload is produced. -/
theorem C6_partial_frame_panics :
    (Reassembler.new.pushData ((singleFrame [9, 8] 5).take 15)).getNextData =
      .error .panic ∧
    (Reassembler.new.pushData ((singleFrame [9, 8] 5).take 10)).getNextData =
      .error .noData ∧
    ((Reassembler.new.pushData ((singleFrame [9, 8] 5).take 10)).pushData
        ((singleFrame [9, 8] 5).drop 10)).getNextData.toOption.map
      (fun x => x.2.1) = some [9, 8] := by decide

/-- C7 (amended): a `File` message whose joined path does not start
(component-wise) with the root is dropped — nothing is created, nothing is
inserted into the open-file map — and a `FileChunk` for an id absent from
the map writes nothing; but the `starts_with` check compares components
without normalizing `..`, so it only blocks absolute filenames, not `..`
escapes. -/
theorem C7_path_check (root : RPath) (of : List (Nat × Nat)) (fn : RPath)
    (id : Nat) (hdrop : ¬ (root.join fn).startsWith root) :
    ClientHandler.processMessageFile root of fn id = (of, none) ∧
    (∀ off cs, cs ≠ 0 → of.find? (fun e => e.1 == id) = none →
      ClientHandler.processMessageFileChunk of id off cs = (of, none)) := by
  constructor
  · rw [ClientHandler.processMessageFile]
    simp only [hdrop, if_false, Bool.false_eq_true]
  · intro off cs hcs hfind
    rw [ClientHandler.processMessageFileChunk, if_neg hcs, hfind]

/-- C7 witness: an absolute filename is dropped with no state change, and a
chunk for the never-registered id 7 writes nothing. -/
theorem C7_path_check_witness :
    ClientHandler.processMessageFile ⟨true, [.normal "a"]⟩ []
        ⟨true, [.normal "b"]⟩ 7 = ([], none) ∧
    (∀ off cs, cs ≠ 0 →
      (List.find? (fun e => e.1 == 7) ([] : List (Nat × Nat))) = none →
      ClientHandler.processMessageFileChunk [] 7 off cs = ([], none)) :=
  C7_path_check ⟨true, [.normal "a"]⟩ [] ⟨true, [.normal "b"]⟩ 7 (by decide)

/-- C7 counterexample: the claim's conclusion "no receiver-created file
escapes the configured root (no `..` escape)" is false — the relative
filename `../evil` passes the component-prefix check, the file is created
and registered, and the path the OS resolves lies outside the root. -/
theorem C7_counterexample :
    (RPath.join ⟨true, [.normal "srv", .normal "data"]⟩
        ⟨false, [.parentDir, .normal "evil"]⟩).startsWith
      ⟨true, [.normal "srv", .normal "data"]⟩ = true ∧
    ClientHandler.processMessageFile ⟨true, [.normal "srv", .normal "data"]⟩
        [] ⟨false, [.parentDir, .normal "evil"]⟩ 7 =
      ([(7, 0)],
        some ⟨true, [.normal "srv", .normal "data", .parentDir, .normal "evil"]⟩) ∧
    normalizeComps [.normal "srv", .normal "data", .parentDir, .normal "evil"] =
      [.normal "srv", .normal "evil"] ∧
    [PathComp.normal "srv", .normal "data"].isPrefixOf
      [PathComp.normal "srv", .normal "evil"] = false := by decide

/-- C8: keep-alive tracking — the first id is stored without a warning;
afterwards the handler warns exactly when the id differs from the stored id
plus one in wrapping 64-bit arithmetic and always stores the received id;
hence `a, a+2` warns exactly once and `a, a+1` never. -/
theorem C8_keepalive (a : Nat) :
    (∀ i, ClientHandler.processKeepAlive none i = (some i, false)) ∧
    (∀ prev i, ClientHandler.processKeepAlive (some prev) i =
      (some i, decide (i ≠ (prev + 1) % 2 ^ 64))) ∧
    (ClientHandler.processKeepAlive (some a) ((a + 2) % 2 ^ 64)).2 = true ∧
    (ClientHandler.processKeepAlive (some a) ((a + 1) % 2 ^ 64)).2 = false := by
  refine ⟨fun i => rfl, fun prev i => rfl, ?_, ?_⟩
  · rw [ClientHandler.processKeepAlive]
    simp only [decide_eq_true_eq, ne_eq]
    omega
  · rw [ClientHandler.processKeepAlive]
    simp

/-- C8 witness: the keep-alive law at `a = 10`. -/
theorem C8_keepalive_witness :
    (∀ i, ClientHandler.processKeepAlive none i = (some i, false)) ∧
    (∀ prev i, ClientHandler.processKeepAlive (some prev) i =
      (some i, decide (i ≠ (prev + 1) % 2 ^ 64))) ∧
    (ClientHandler.processKeepAlive (some 10) ((10 + 2) % 2 ^ 64)).2 = true ∧
    (ClientHandler.processKeepAlive (some 10) ((10 + 1) % 2 ^ 64)).2 = false :=
  C8_keepalive 10

/-- C9 (amended): the dispatcher's enqueue to a per-peer handler delivers
when the bounded queue has room, but when the queue is full the tokio
`send(..).await` suspends the dispatcher — the datagram is not dropped —
so a stuck peer's full queue can delay delivery to other peers. -/
theorem C9_dispatcher_blocks (q : List (List Nat)) (cap : Nat) (d : List Nat) :
    (q.length < cap →
      Server.enqueueToHandler q cap d = (.delivered, q ++ [d])) ∧
    (cap ≤ q.length →
      Server.enqueueToHandler q cap d = (.blocked, q) ∧
      (Server.enqueueToHandler q cap d).1 ≠ .dropped) := by
  constructor
  · intro hlt
    rw [Server.enqueueToHandler, if_pos hlt]
  · intro hge
    rw [Server.enqueueToHandler, if_neg (by omega)]
    exact ⟨rfl, by simp⟩

/-- C9 witness: a capacity-1 queue holding one datagram blocks the next. -/
theorem C9_dispatcher_blocks_witness :
    Server.enqueueToHandler [[7]] 1 [8] = (.blocked, [[7]]) ∧
    (Server.enqueueToHandler [[7]] 1 [8]).1 ≠ .dropped :=
  (C9_dispatcher_blocks [[7]] 1 [8]).2 (by decide)

/-- C9 counterexample: at a full queue the dispatcher's enqueue blocks; it
does not produce the claimed drop. -/
theorem C9_counterexample :
    Server.enqueueToHandler [[7]] 1 [8] = (.blocked, [[7]]) ∧
    EnqueueOutcome.blocked ≠ EnqueueOutcome.dropped := by decide

/-- C10: id discipline — the process-wide counter starts at 0 and each
`get_next_id` returns the current value and increments it by one (wrapping
at `2^32`); the reassembler records the first id it parses, silently
consumes and discards a framed chunk whose id is below the expected id,
adopts a greater id after exactly one warning, and after each completely
assembled message its expected id is the message id plus one — all keyed on
header ids, for arbitrary payload bytes. -/
theorem C10_id_discipline (p q : List Nat) (i1 i2 e idf : Nat)
    (hp : p.length < 2 ^ 16) (hq : q.length < 2 ^ 16)
    (hi1 : i1 < 2 ^ 32) (hi2 : i2 < 2 ^ 32) (hif : idf < 2 ^ 32)
    (hst : i1 < i2) (hgt : e < i2)
    (hsm1 : (singleFrame p i1 ++ singleFrame q i2).length ≤ 4096)
    (hsm2 : (singleFrame q i2).length ≤ 4096)
    (hsm3 : (singleFrame p idf).length ≤ 4096) :
    RetransmitHeader.nextIdInit = 0 ∧
    (∀ c, RetransmitHeader.getNextId c = (c, (c + 1) % 2 ^ 32)) ∧
    (Reassembler.mk (singleFrame p idf) 0 none none).loadHeader =
      .ok (Reassembler.mk (singleFrame p idf) (0 + RetransmitHeader.byteSize)
        (some ⟨0, p.length, p.length, idf⟩) (some idf),
        ⟨0, p.length, p.length, idf⟩) ∧
    (Reassembler.new.pushData (singleFrame p idf)).getNextData =
      .ok (Reassembler.mk (singleFrame p idf)
        (0 + RetransmitHeader.byteSize + p.length) none
        (some ((idf + 1) % 2 ^ 32)), p, 0) ∧
    Reassembler.getNextData
        (Reassembler.mk (singleFrame p i1 ++ singleFrame q i2) 0 none
          (some i2)) =
      .ok (Reassembler.mk (singleFrame p i1 ++ singleFrame q i2)
        (0 + RetransmitHeader.byteSize + p.length +
          RetransmitHeader.byteSize + q.length) none
        (some ((i2 + 1) % 2 ^ 32)), q, 0) ∧
    Reassembler.getNextData
        (Reassembler.mk (singleFrame q i2) 0 none (some e)) =
      .ok (Reassembler.mk (singleFrame q i2)
        (0 + RetransmitHeader.byteSize + q.length) none
        (some ((i2 + 1) % 2 ^ 32)), q, 1) := by
  refine ⟨rfl, fun c => rfl, ?_, ?_, ?_, ?_⟩
  · have h1 := Reassembler.loadHeader_parse (singleFrame p idf) 0 none
      ⟨0, p.length, p.length, idf⟩ p (by simp [singleFrame])
      ⟨by norm_num, hp, hp, hif⟩ (by simp) hsm3
    simpa using h1
  · exact Reassembler.getNextData_singleFrame p idf hp hif hsm3
  · have h1 := Reassembler.getNextData_skipStale p q i1 i2 i2 hp hq hi1 hi2
      hst (le_refl i2) hsm1
    simpa using h1
  · rw [Reassembler.getNextData]
    have h1 := Reassembler.getNextDataLoop_frame
      ((singleFrame q i2).length + 1) ((singleFrame q i2).length + 1)
      (singleFrame q i2) 0 (some e) q [] [] i2 0 (by simp) hq hi2 hsm2
      (by simpa using le_of_lt hgt)
    simp only [Option.getD_some] at h1
    simpa [hgt] using h1

/-- C10 witness: the id discipline at payloads `[1]` and `[2, 3]`, stale id
0 against expected 5, and adopted id 5 over expected 3. -/
theorem C10_id_discipline_witness :
    Reassembler.getNextData
        (Reassembler.mk (singleFrame [2, 3] 5) 0 none (some 3)) =
      .ok (Reassembler.mk (singleFrame [2, 3] 5)
        (0 + RetransmitHeader.byteSize + [2, 3].length) none
        (some ((5 + 1) % 2 ^ 32)), [2, 3], 1) :=
  (C10_id_discipline [1] [2, 3] 0 5 3 4 (by decide) (by decide) (by decide)
    (by decide) (by decide) (by decide) (by decide) (by decide) (by decide)
    (by decide)).2.2.2.2.2

end Oneway
